import Mathlib

/-!
Verification of the flat_device_tree decoder (src/util.rs, src/parser.rs).

The Rust code is shallowly embedded: the byte buffer is a `List Nat`
(each element a byte value), the cursor position a `Nat`, and every
fallible operation returns a result that carries the mutated stream
state.  Rust `usize` arithmetic is modelled on `Nat`; the one place the
64-bit width matters (the bitwise-not in `read_string0`'s bounds check)
uses an explicit `2 ^ 64`.  An out-of-bounds slice index, which in Rust
aborts the process with a panic, is modelled by the distinguished
result `oob`, which carries no state because a panicking run returns
nothing.
-/

namespace FlatDeviceTree

/-- Rust `usize` modulus on the 64-bit targets this crate runs on. -/
def USIZE : Nat := 2 ^ 64

/-- `MiniStream` from src/util.rs: a borrowed byte buffer plus a read position. -/
structure MiniStream where
  buf : List Nat
  pos : Nat
deriving DecidableEq

/-- Result of a `MiniStream` operation: success with a value and the
resulting stream, `ReadPastEnd` with the stream as the method leaves it,
or `oob` for a Rust panic from an out-of-bounds index (no state: the
process aborts). -/
inductive MRes (α : Type) where
  | ok : α → MiniStream → MRes α
  | fail : MiniStream → MRes α
  | oob : MRes α
deriving DecidableEq

/-- `MiniStream::pos`. -/
def MiniStream.position (s : MiniStream) : Nat := s.pos

/-- `MiniStream::align` (src/util.rs lines 28-39): advance to the next
multiple of 4; fails if the padded position would not stay strictly
inside the buffer; no-op when already aligned. -/
def MiniStream.align (s : MiniStream) : MRes Unit :=
  let m := s.pos % 4
  if m ≠ 0 then
    let step := 4 - m
    if step + s.pos ≥ s.buf.length then .fail s
    else .ok () ⟨s.buf, s.pos + step⟩
  else .ok () s

/-- Loop body of `MiniStream::read_string0` (src/util.rs lines 45-55).
`rest` is the invariant `buf.drop p`; indexing `buf[p]` with `p` out of
bounds is the `oob` (panic) case, reached exactly when `rest` is empty.
After stepping past a non-zero byte the source checks
`! self.pos < self.buf.len()`, which by Rust precedence is
`(!self.pos) < len`, i.e. `2^64 - 1 - pos < len`; that comparison is
kept verbatim. -/
def rs0_loop (buf : List Nat) : Nat → List Nat → MRes Unit
  | _, [] => .oob
  | p, b :: rest =>
    if b = 0 then .ok () ⟨buf, p + 1⟩
    else if USIZE - 1 - (p + 1) < buf.length then .fail ⟨buf, p + 1⟩
    else rs0_loop buf (p + 1) rest

/-- `MiniStream::read_string0` (src/util.rs lines 41-58): scan for a zero
byte and return `buf[start..pos]` for the final position (the slice the
source returns includes the terminator, since `pos` was stepped past it
before the break). -/
def MiniStream.read_string0 (s : MiniStream) : MRes (List Nat) :=
  match rs0_loop s.buf s.pos (s.buf.drop s.pos) with
  | .ok _ s1 => .ok ((s.buf.drop s.pos).take (s1.pos - s.pos)) s1
  | .fail s1 => .fail s1
  | .oob => .oob

/-- `MiniStream::read_bytes` (src/util.rs lines 60-69): strict
`pos + len < buf.len()` bounds check, then return the slice and advance. -/
def MiniStream.read_bytes (s : MiniStream) (len : Nat) : MRes (List Nat) :=
  if s.pos + len < s.buf.length then
    .ok ((s.buf.drop s.pos).take len) ⟨s.buf, s.pos + len⟩
  else .fail s

/-- `MiniStream::peek_bytes` (src/util.rs lines 71-78): same check, no
position change. -/
def MiniStream.peek_bytes (s : MiniStream) (len : Nat) : MRes (List Nat) :=
  if s.pos + len < s.buf.length then
    .ok ((s.buf.drop s.pos).take len) s
  else .fail s

/-- Big-endian value of the first four bytes of a list. -/
def be4 : List Nat → Nat
  | a :: b :: c :: d :: _ => ((a * 256 + b) * 256 + c) * 256 + d
  | _ => 0

/-- `MiniStream::peek_u32_le` (src/util.rs lines 80-94): bounds check
`pos + 4 < buf.len()`, then an unaligned native load followed by a byte
swap.  On the little-endian hosts the crate targets (the swap is what
makes the big-endian wire format come out right there) the returned
value is the big-endian reading of the four bytes, which is what this
models. -/
def MiniStream.peek_u32_le (s : MiniStream) : MRes Nat :=
  if s.pos + 4 < s.buf.length then
    .ok (be4 ((s.buf.drop s.pos).take 4)) s
  else .fail s

/-- `MiniStream::read_u32_le` (src/util.rs lines 96-100): peek then
advance by 4. -/
def MiniStream.read_u32_le (s : MiniStream) : MRes Nat :=
  match s.peek_u32_le with
  | .ok v _ => .ok v ⟨s.buf, s.pos + 4⟩
  | .fail s1 => .fail s1
  | .oob => .oob

/-- `MiniStream::seek` (src/util.rs lines 102-110): fails when the target
is not strictly inside the buffer, otherwise sets the position. -/
def MiniStream.seek (s : MiniStream) (position : Nat) : MRes Unit :=
  if position ≥ s.buf.length then .fail s
  else .ok () ⟨s.buf, position⟩

/-- Big-endian u32 stored in `buf` at byte offset `q` (the value
`peek_u32_le` yields at position `q`). -/
def word (buf : List Nat) (q : Nat) : Nat := be4 ((buf.drop q).take 4)

/-- `ParseError` from src/parser.rs lines 4-11. -/
inductive ParseError where
  | invalidMagic
  | readError
  | invalidTag
  | unexpectedTag
  | noRootFound
deriving DecidableEq

/-- `Tag` from src/parser.rs lines 49-56. -/
inductive Tag where
  | property
  | beginNode
  | endNode
  | endTag
  | magic
deriving DecidableEq

/-- `Tag::from_u32` (src/parser.rs lines 58-68); `none` stands for
`Err(ParseError::InvalidTag)`. -/
def Tag.from_u32 (val : Nat) : Option Tag :=
  if val = 0x01 then some .beginNode
  else if val = 0x02 then some .endNode
  else if val = 0x03 then some .property
  else if val = 0x09 then some .endTag
  else if val = 0xd00dfeed then some .magic
  else none

/-- `Property` from src/parser.rs lines 28-31. -/
structure Property where
  name : List Nat
  data : List Nat
deriving DecidableEq

/-- `Node` from src/parser.rs lines 33-38. -/
inductive Node where
  | mk (name : List Nat) (properties : List Property) (children : List Node)

def Node.name : Node → List Nat
  | .mk n _ _ => n

def Node.properties : Node → List Property
  | .mk _ p _ => p

def Node.children : Node → List Node
  | .mk _ _ c => c

/-- `DeviceTreeHeader` from src/parser.rs lines 256-273. -/
structure DeviceTreeHeader where
  totalsize : Nat
  off_dt_struct : Nat
  off_dt_strings : Nat
  off_mem_rsvmap : Nat
  version : Nat
  last_comp_version : Nat
  boot_cpuid_phys : Nat
  size_dt_strings : Nat
  size_dt_struct : Nat
deriving DecidableEq

/-- `DeviceTree` from src/parser.rs lines 22-26. -/
structure DeviceTree where
  header : DeviceTreeHeader
  root : Node

/-- The mutable state of `DeviceTreeParser` (src/parser.rs lines 15-20):
the cursor plus the strings-block base offset. -/
structure PState where
  stream : MiniStream
  string_offset : Nat
deriving DecidableEq

/-- Result of a decoder step: success, a `ParseError` (both with the
decoder state at return), `oob` for a Rust panic, or `fuelOut`, a
modelling artifact marking exhaustion of the explicit recursion fuel
that stands in for the source's unbounded recursion (never reached when
the fuel exceeds the nesting and sibling counts of the input). -/
inductive PRes (α : Type) where
  | ok : α → PState → PRes α
  | perr : ParseError → PState → PRes α
  | oob : PRes α
  | fuelOut : PRes α
deriving DecidableEq

def PRes.okOf {α : Type} : PRes α → Option α
  | .ok v _ => some v
  | _ => none

def PRes.errOf {α : Type} : PRes α → Option ParseError
  | .perr e _ => some e
  | _ => none

def PRes.isOob {α : Type} : PRes α → Bool
  | .oob => true
  | _ => false

/-- Run a cursor operation from decoder code: a `try!` on a
`MiniStream` result, with `MiniStreamReadError → ParseError::ReadError`
(the `From` impl at src/parser.rs lines 295-299). -/
def pstep {α : Type} (f : MiniStream → MRes α) (p : PState) : PRes α :=
  match f p.stream with
  | .ok v s => .ok v ⟨s, p.string_offset⟩
  | .fail s => .perr .readError ⟨s, p.string_offset⟩
  | .oob => .oob

/-- `DeviceTreeParser::tag` (src/parser.rs lines 83-85): consume a u32
and decode it as a tag. -/
def tagOf (p : PState) : PRes Tag :=
  match pstep MiniStream.read_u32_le p with
  | .ok v p1 =>
    match Tag.from_u32 v with
    | some t => .ok t p1
    | none => .perr .invalidTag p1
  | .perr e p1 => .perr e p1
  | .oob => .oob
  | .fuelOut => .fuelOut

/-- `DeviceTreeParser::peek_tag` (src/parser.rs lines 87-89). -/
def peek_tag (p : PState) : PRes Tag :=
  match pstep MiniStream.peek_u32_le p with
  | .ok v p1 =>
    match Tag.from_u32 v with
    | some t => .ok t p1
    | none => .perr .invalidTag p1
  | .perr e p1 => .perr e p1
  | .oob => .oob
  | .fuelOut => .fuelOut

/-- `DeviceTreeParser::accept_tag` (src/parser.rs lines 91-100): peek,
and consume only on a match. -/
def accept_tag (tag : Tag) (p : PState) : PRes Bool :=
  match peek_tag p with
  | .ok t p1 =>
    if t = tag then
      match tagOf p1 with
      | .ok _ p2 => .ok true p2
      | .perr e p2 => .perr e p2
      | .oob => .oob
      | .fuelOut => .fuelOut
    else .ok false p1
  | .perr e p1 => .perr e p1
  | .oob => .oob
  | .fuelOut => .fuelOut

/-- `DeviceTreeParser::expect_tag` (src/parser.rs lines 102-108). -/
def expect_tag (tag : Tag) (p : PState) : PRes Unit :=
  match accept_tag tag p with
  | .ok true p1 => .ok () p1
  | .ok false p1 => .perr .unexpectedTag p1
  | .perr e p1 => .perr e p1
  | .oob => .oob
  | .fuelOut => .fuelOut

/-- The search loop of `DeviceTreeParser::block_string0` (src/parser.rs
lines 115-125): read 4-byte blocks until one contains a zero, returning
`(num_blocks, offset)` with `offset = 4 - i` for the first zero at block
index `i`.  `rest` maintains the invariant `buf.drop p`; a cons pattern
of five elements is exactly the strict `pos + 4 < buf.len()` bound of
the inner `read_bytes(4)`, whose failure is the fall-through case. -/
def block_loop (buf : List Nat) : Nat → Nat → List Nat → MRes (Nat × Nat)
  | k, p, a :: b :: c :: d :: e :: rest =>
    if a = 0 then .ok (k + 1, 4) ⟨buf, p + 4⟩
    else if b = 0 then .ok (k + 1, 3) ⟨buf, p + 4⟩
    else if c = 0 then .ok (k + 1, 2) ⟨buf, p + 4⟩
    else if d = 0 then .ok (k + 1, 1) ⟨buf, p + 4⟩
    else block_loop buf (k + 1) (p + 4) (e :: rest)
  | _, p, _ => .fail ⟨buf, p⟩

/-- `DeviceTreeParser::block_string0` (src/parser.rs lines 110-130):
locate the terminator block-wise, re-seek to the start, re-read the
aligned span and drop the final `offset` bytes. -/
def block_string0 (p : PState) : PRes (List Nat) :=
  let start := p.stream.pos
  match block_loop p.stream.buf 0 start (p.stream.buf.drop start) with
  | .ok (num_blocks, offset) s1 =>
    match s1.seek start with
    | .ok _ s2 =>
      match s2.read_bytes (num_blocks * 4) with
      | .ok data s3 => .ok (data.take (data.length - offset)) ⟨s3, p.string_offset⟩
      | .fail s3 => .perr .readError ⟨s3, p.string_offset⟩
      | .oob => .oob
    | .fail s2 => .perr .readError ⟨s2, p.string_offset⟩
    | .oob => .oob
  | .fail s1 => .perr .readError ⟨s1, p.string_offset⟩
  | .oob => .oob

/-- `DeviceTreeParser::far_string0` (src/parser.rs lines 183-192): save
the position, seek into the strings block, read a zero-terminated
string, seek back. -/
def far_string0 (offset : Nat) (p : PState) : PRes (List Nat) :=
  let pos := p.stream.pos
  match p.stream.seek (p.string_offset + offset) with
  | .ok _ s1 =>
    match s1.read_string0 with
    | .ok v s2 =>
      match s2.seek pos with
      | .ok _ s3 => .ok v ⟨s3, p.string_offset⟩
      | .fail s3 => .perr .readError ⟨s3, p.string_offset⟩
      | .oob => .oob
    | .fail s2 => .perr .readError ⟨s2, p.string_offset⟩
    | .oob => .oob
  | .fail s1 => .perr .readError ⟨s1, p.string_offset⟩
  | .oob => .oob

/-- The property loop of `DeviceTreeParser::node` (src/parser.rs lines
141-163): while an `FDT_PROP` tag is accepted, read the payload length,
the name offset, the payload, re-align, resolve the name from the
strings block, and collect the property.  The fuel only bounds the
modelled iteration count. -/
def propsF : Nat → PState → PRes (List Property)
  | 0, _ => .fuelOut
  | fuel + 1, p =>
    match accept_tag .property p with
    | .ok false p1 => .ok [] p1
    | .ok true p1 =>
      match pstep MiniStream.read_u32_le p1 with
      | .ok prop_data_len p2 =>
        match pstep MiniStream.read_u32_le p2 with
        | .ok prop_name_offset p3 =>
          match pstep (fun s => s.read_bytes prop_data_len) p3 with
          | .ok prop_data p4 =>
            match pstep MiniStream.align p4 with
            | .ok _ p5 =>
              match far_string0 prop_name_offset p5 with
              | .ok prop_val_name p6 =>
                match propsF fuel p6 with
                | .ok rest p7 => .ok (⟨prop_val_name, prop_data⟩ :: rest) p7
                | .perr e p7 => .perr e p7
                | .oob => .oob
                | .fuelOut => .fuelOut
              | .perr e p6 => .perr e p6
              | .oob => .oob
              | .fuelOut => .fuelOut
            | .perr e p5 => .perr e p5
            | .oob => .oob
            | .fuelOut => .fuelOut
          | .perr e p4 => .perr e p4
          | .oob => .oob
          | .fuelOut => .fuelOut
        | .perr e p3 => .perr e p3
        | .oob => .oob
        | .fuelOut => .fuelOut
      | .perr e p2 => .perr e p2
      | .oob => .oob
      | .fuelOut => .fuelOut
    | .perr e p1 => .perr e p1
    | .oob => .oob
    | .fuelOut => .fuelOut

/-- The child loop of `DeviceTreeParser::node` (src/parser.rs lines
165-172): parse child nodes with `nodeAt` until one call reports "no
node here". -/
def childrenLoop (nodeAt : PState → PRes (Option Node)) : Nat → PState → PRes (List Node)
  | 0, _ => .fuelOut
  | fuel + 1, p =>
    match nodeAt p with
    | .ok (some child) p1 =>
      match childrenLoop nodeAt fuel p1 with
      | .ok rest p2 => .ok (child :: rest) p2
      | .perr e p2 => .perr e p2
      | .oob => .oob
      | .fuelOut => .fuelOut
    | .ok none p1 => .ok [] p1
    | .perr e p1 => .perr e p1
    | .oob => .oob
    | .fuelOut => .fuelOut

/-- `DeviceTreeParser::node` (src/parser.rs lines 132-181): accept
`FDT_BEGIN_NODE` (returning "no node here" otherwise), read the
block-aligned name, the properties, the children, then require a
matching `FDT_END_NODE`. -/
def nodeF : Nat → PState → PRes (Option Node)
  | 0, _ => .fuelOut
  | fuel + 1, p =>
    match accept_tag .beginNode p with
    | .ok true p1 =>
      match block_string0 p1 with
      | .ok name p2 =>
        match propsF (fuel + 1) p2 with
        | .ok props p3 =>
          match childrenLoop (nodeF fuel) (fuel + 1) p3 with
          | .ok children p4 =>
            match expect_tag .endNode p4 with
            | .ok _ p5 => .ok (some (.mk name props children)) p5
            | .perr e p5 => .perr e p5
            | .oob => .oob
            | .fuelOut => .fuelOut
          | .perr e p4 => .perr e p4
          | .oob => .oob
          | .fuelOut => .fuelOut
        | .perr e p3 => .perr e p3
        | .oob => .oob
        | .fuelOut => .fuelOut
      | .perr e p2 => .perr e p2
      | .oob => .oob
      | .fuelOut => .fuelOut
    | .ok false p1 => .ok none p1
    | .perr e p1 => .perr e p1
    | .oob => .oob
    | .fuelOut => .fuelOut

/-- The header-field block of `DeviceTreeParser::parse` (src/parser.rs
lines 200-241): the six fixed u32 fields (storing `off_dt_strings` into
the parser's `string_offset` as the source does), then the three
version-gated fields, each left zero when its version guard fails. -/
def parseHeaderFields (p : PState) : PRes DeviceTreeHeader :=
  match pstep MiniStream.read_u32_le p with
  | .ok totalsize p1 =>
    match pstep MiniStream.read_u32_le p1 with
    | .ok off_dt_struct p2 =>
      match pstep MiniStream.read_u32_le p2 with
      | .ok off_dt_strings p3 =>
        let p3 : PState := ⟨p3.stream, off_dt_strings⟩
        match pstep MiniStream.read_u32_le p3 with
        | .ok off_mem_rsvmap p4 =>
          match pstep MiniStream.read_u32_le p4 with
          | .ok version p5 =>
            match pstep MiniStream.read_u32_le p5 with
            | .ok last_comp_version p6 =>
              match (if version > 2 then pstep MiniStream.read_u32_le p6 else .ok 0 p6) with
              | .ok boot_cpuid_phys p7 =>
                match (if version > 3 then pstep MiniStream.read_u32_le p7 else .ok 0 p7) with
                | .ok size_dt_strings p8 =>
                  match (if version > 17 then pstep MiniStream.read_u32_le p8 else .ok 0 p8) with
                  | .ok size_dt_struct p9 =>
                    .ok ⟨totalsize, off_dt_struct, off_dt_strings, off_mem_rsvmap,
                         version, last_comp_version, boot_cpuid_phys,
                         size_dt_strings, size_dt_struct⟩ p9
                  | .perr e p9 => .perr e p9
                  | .oob => .oob
                  | .fuelOut => .fuelOut
                | .perr e p8 => .perr e p8
                | .oob => .oob
                | .fuelOut => .fuelOut
              | .perr e p7 => .perr e p7
              | .oob => .oob
              | .fuelOut => .fuelOut
            | .perr e p6 => .perr e p6
            | .oob => .oob
            | .fuelOut => .fuelOut
          | .perr e p5 => .perr e p5
          | .oob => .oob
          | .fuelOut => .fuelOut
        | .perr e p4 => .perr e p4
        | .oob => .oob
        | .fuelOut => .fuelOut
      | .perr e p3 => .perr e p3
      | .oob => .oob
      | .fuelOut => .fuelOut
    | .perr e p2 => .perr e p2
    | .oob => .oob
    | .fuelOut => .fuelOut
  | .perr e p1 => .perr e p1
  | .oob => .oob
  | .fuelOut => .fuelOut

/-- `DeviceTreeParser::parse` (src/parser.rs lines 194-253): magic tag,
header fields, seek to `off_dt_struct`, one root node; `Ok(None)` from
the node parse is `NoRootFound`. -/
def parse (fuel : Nat) (p : PState) : PRes DeviceTree :=
  match tagOf p with
  | .ok t p1 =>
    if t = .magic then
      match parseHeaderFields p1 with
      | .ok header p2 =>
        match pstep (fun s => s.seek header.off_dt_struct) p2 with
        | .ok _ p3 =>
          match nodeF fuel p3 with
          | .ok (some root) p4 => .ok ⟨header, root⟩ p4
          | .ok none p4 => .perr .noRootFound p4
          | .perr e p4 => .perr e p4
          | .oob => .oob
          | .fuelOut => .fuelOut
        | .perr e p3 => .perr e p3
        | .oob => .oob
        | .fuelOut => .fuelOut
      | .perr e p2 => .perr e p2
      | .oob => .oob
      | .fuelOut => .fuelOut
    else .perr .invalidMagic p1
  | .perr e p1 => .perr e p1
  | .oob => .oob
  | .fuelOut => .fuelOut

/-- The four bytes of a u32 written big-endian, as on the FDT wire. -/
def w32 (x : Nat) : List Nat :=
  [x / 2 ^ 24 % 256, x / 2 ^ 16 % 256, x / 2 ^ 8 % 256, x % 256]

/-- How many bytes of version-gated header fields `parse` consumes for a
given `version` value (4 each for `boot_cpuid_phys` when version > 2,
`size_dt_strings` when version > 3, `size_dt_struct` when version > 17). -/
def gatedLen (v : Nat) : Nat :=
  (if 2 < v then 4 else 0) + (if 3 < v then 4 else 0) + (if 17 < v then 4 else 0)

/-- The header `parse` builds from the words stored at byte offset `q`
(the position right after the magic word), with fields missing for the
blob's version left at their zero defaults. -/
def headerAt (buf : List Nat) (q : Nat) : DeviceTreeHeader :=
  let v := word buf (q + 16)
  ⟨word buf q, word buf (q + 4), word buf (q + 8), word buf (q + 12),
   v, word buf (q + 20),
   if 2 < v then word buf (q + 24) else 0,
   if 3 < v then word buf (q + 28) else 0,
   if 17 < v then word buf (q + 32) else 0⟩

/-- The spec's hand-built minimal valid blob (79 bytes): version-17
header, one root node with empty name, one property with payload
`"test\0"` whose name offset 0 resolves at the strings block
(offset 68) holding `"compatible\0"`, no children, and no trailing
`FDT_END` tag. -/
def blob3 : List Nat :=
  w32 0xd00dfeed ++ w32 79 ++ w32 36 ++ w32 68 ++ w32 0 ++ w32 17 ++ w32 16 ++
  w32 0 ++ w32 11 ++
  w32 1 ++ w32 0 ++
  w32 3 ++ w32 5 ++ w32 0 ++ [116, 101, 115, 116, 0] ++ [0, 0, 0] ++
  w32 2 ++
  [99, 111, 109, 112, 97, 116, 105, 98, 108, 101, 0]

/-- An 84-byte blob `parse` accepts in full: version-17 header with
`off_dt_strings = 0`, a root node with two properties.  The first
property has no payload and name offset 68, which resolves inside the
second property's payload bytes (`"xxxxxxx\0"` at offsets 68..76); the
second has that payload and name offset 48, which resolves at the zero
bytes of the first property's length word.  The root's `FDT_END_NODE`
sits at offset 76, followed by an `FDT_END` word. -/
def blob5 : List Nat :=
  w32 0xd00dfeed ++ w32 84 ++ w32 36 ++ w32 0 ++ w32 0 ++ w32 17 ++ w32 16 ++
  w32 0 ++ w32 0 ++
  w32 1 ++ w32 0 ++
  w32 3 ++ w32 0 ++ w32 68 ++
  w32 3 ++ w32 8 ++ w32 48 ++ [120, 120, 120, 120, 120, 120, 120, 0] ++
  w32 2 ++ w32 9

/-- A 44-byte blob with a valid version-17 header whose structure block
starts with `FDT_END` instead of `FDT_BEGIN_NODE`. -/
def blob8 : List Nat :=
  w32 0xd00dfeed ++ w32 44 ++ w32 36 ++ w32 0 ++ w32 0 ++ w32 17 ++ w32 16 ++
  w32 0 ++ w32 0 ++
  w32 9 ++ w32 0

/-- A 64-byte blob whose structure block has two `FDT_BEGIN_NODE` tags
(root at 36, child named `"A"` at 44) but only one `FDT_END_NODE`
(at 52, closing the child) before the `FDT_END` word at 56. -/
def blob9 : List Nat :=
  w32 0xd00dfeed ++ w32 64 ++ w32 36 ++ w32 0 ++ w32 0 ++ w32 17 ++ w32 16 ++
  w32 0 ++ w32 0 ++
  w32 1 ++ w32 0 ++
  w32 1 ++ [65, 0, 0, 0] ++
  w32 2 ++ w32 9 ++ w32 0

/-- C1: a read of `n` bytes whose last byte is exactly the final byte of
the buffer (`position + n = length`) fails with `ReadPastEnd` in
`read_bytes`, `peek_bytes` and `peek_u32_le`, because the source checks
`pos + len < buf.len()` strictly; only a read ending strictly before the
final byte succeeds.  This refutes the claimed `position + n ≤ length`
success condition at the concrete boundary input. -/
theorem c1_read_bytes_boundary :
    MiniStream.read_bytes ⟨[1, 2, 3, 4], 0⟩ 4 = .fail ⟨[1, 2, 3, 4], 0⟩ ∧
    MiniStream.peek_bytes ⟨[1, 2, 3, 4], 0⟩ 4 = .fail ⟨[1, 2, 3, 4], 0⟩ ∧
    MiniStream.peek_u32_le ⟨[1, 2, 3, 4], 0⟩ = .fail ⟨[1, 2, 3, 4], 0⟩ ∧
    MiniStream.read_bytes ⟨[1, 2, 3, 4, 9], 0⟩ 4 = .ok [1, 2, 3, 4] ⟨[1, 2, 3, 4, 9], 4⟩ :=
  ⟨rfl, rfl, rfl, rfl⟩

/-- C2: on a buffer with no zero byte after the position, `read_string0`
indexes past the end of the buffer (a Rust panic, `oob` here) instead of
failing with `ReadPastEnd`, because `! self.pos < self.buf.len()` parses
as `(!pos) < len` and never fires; and on success the returned slice
includes the terminating zero byte rather than excluding it. -/
theorem c2_read_string0_missing_terminator :
    MiniStream.read_string0 ⟨[65], 0⟩ = .oob ∧
    MiniStream.read_string0 ⟨[65, 0], 0⟩ = .ok [65, 0] ⟨[65, 0], 2⟩ :=
  ⟨rfl, rfl⟩

/-- C3: parsing the spec's minimal valid blob succeeds with an
empty-named root, payload `"test\0"`, and no children — but the single
property's name is the eleven bytes `"compatible\0"` (terminator
included, as `read_string0` returns it), not the ten bytes
`"compatible"`. -/
theorem c3_minimal_blob_parse :
    parse 100 ⟨⟨blob3, 0⟩, 0⟩ =
      .ok ⟨⟨79, 36, 68, 0, 17, 16, 0, 11, 0⟩,
           .mk [] [⟨[99, 111, 109, 112, 97, 116, 105, 98, 108, 101, 0],
                    [116, 101, 115, 116, 0]⟩] []⟩
        ⟨⟨blob3, 68⟩, 68⟩ ∧
    ([99, 111, 109, 112, 97, 116, 105, 98, 108, 101, 0] : List Nat) ≠
      [99, 111, 109, 112, 97, 116, 105, 98, 108, 101] :=
  ⟨rfl, by decide⟩

/-- C5: `blob5` parses successfully in full (so it is well formed in the
sense the decoder itself defines), its root's final `FDT_END_NODE` is at
offset 76, yet truncating the buffer to 72 bytes — strictly before that
tag — makes `parse` index past the end of the truncated buffer (a Rust
panic) while resolving the first property's name, instead of failing
with `ReadError` or `UnexpectedTag`. -/
theorem c5_truncation_out_of_bounds :
    parse 100 ⟨⟨blob5, 0⟩, 0⟩ =
      .ok ⟨⟨84, 36, 0, 0, 17, 16, 0, 0, 0⟩,
           .mk [] [⟨[120, 120, 120, 120, 120, 120, 120, 0], []⟩,
                   ⟨[0], [120, 120, 120, 120, 120, 120, 120, 0]⟩] []⟩
        ⟨⟨blob5, 80⟩, 0⟩ ∧
    parse 100 ⟨⟨blob5.take 72, 0⟩, 0⟩ = .oob :=
  ⟨rfl, rfl⟩

/-- C9: the structure block of `blob9` opens two nodes but closes only
one before `FDT_END`; `parse` fails with `UnexpectedTag` (at the root's
missing `FDT_END_NODE`) rather than returning a tree. -/
theorem c9_mismatched_node_tags :
    parse 100 ⟨⟨blob9, 0⟩, 0⟩ = .perr .unexpectedTag ⟨⟨blob9, 56⟩, 0⟩ :=
  rfl

/-- A successful `read_string0` scan preserves the buffer and stops at
most one past the scanned region. -/
theorem rs0_loop_ok (buf : List Nat) (rem : List Nat) :
    ∀ (p : Nat) (s' : MiniStream), rs0_loop buf p rem = .ok () s' →
      s'.buf = buf ∧ s'.pos ≤ p + rem.length := by
  induction rem with
  | nil => intro p s' h; simp [rs0_loop] at h
  | cons b rest ih =>
    intro p s' h
    rw [rs0_loop] at h
    by_cases hb : b = 0
    · rw [if_pos hb] at h
      cases h
      exact ⟨rfl, by simp⟩
    · rw [if_neg hb] at h
      by_cases hf : USIZE - 1 - (p + 1) < buf.length
      · rw [if_pos hf] at h; cases h
      · rw [if_neg hf] at h
        obtain ⟨h1, h2⟩ := ih (p + 1) s' h
        refine ⟨h1, ?_⟩
        simp only [List.length_cons]
        omega

/-- On any buffer shorter than `2 ^ 63` bytes (every real one), the
`ReadPastEnd` branch of `read_string0` is unreachable: the comparison
`(!pos) < len` the source performs is `2 ^ 64 - 1 - pos < len`, which
cannot hold when `pos` stays at most `len < 2 ^ 63`. -/
theorem rs0_loop_no_fail (buf : List Nat) (rem : List Nat) :
    ∀ (p : Nat), p + rem.length ≤ buf.length → buf.length < 2 ^ 63 →
      ∀ s', rs0_loop buf p rem ≠ .fail s' := by
  induction rem with
  | nil => intro p _ _ s' h; simp [rs0_loop] at h
  | cons b rest ih =>
    intro p hle hlen s' h
    rw [rs0_loop] at h
    simp only [List.length_cons] at hle
    by_cases hb : b = 0
    · rw [if_pos hb] at h; cases h
    · rw [if_neg hb] at h
      have hguard : ¬ (USIZE - 1 - (p + 1) < buf.length) := by
        simp only [USIZE]
        omega
      rw [if_neg hguard] at h
      exact ih (p + 1) (by omega) hlen s' h

/-- C4: property-name resolution is atomic for the cursor: whenever
`far_string0` returns — with the resolved name or with an error — from a
state whose saved position is inside a buffer of any realistic size, the
cursor position equals the saved structure-block position, so no
property parse leaves the cursor inside the strings block. -/
theorem c4_far_string0_restores_position (p : PState) (offset : Nat)
    (hlen : p.stream.buf.length < 2 ^ 63)
    (hpos : p.stream.pos < p.stream.buf.length) :
    (∀ v p', far_string0 offset p = .ok v p' → p'.stream.pos = p.stream.pos) ∧
    (∀ e p', far_string0 offset p = .perr e p' → p'.stream.pos = p.stream.pos) := by
  obtain ⟨⟨buf, q⟩, so⟩ := p
  have hlen : buf.length < 2 ^ 63 := hlen
  have hpos : q < buf.length := hpos
  simp only [far_string0]
  by_cases h1 : so + offset ≥ buf.length
  · simp only [MiniStream.seek, if_pos h1]
    constructor
    · intro v p' h; cases h
    · intro e p' h; cases h; rfl
  · simp only [MiniStream.seek, if_neg h1]
    simp only [MiniStream.read_string0]
    cases hrs : rs0_loop buf (so + offset) (buf.drop (so + offset)) with
    | oob =>
      constructor
      · intro v p' h; cases h
      · intro e p' h; cases h
    | fail s1 =>
      exfalso
      refine rs0_loop_no_fail buf _ (so + offset) ?_ hlen s1 hrs
      simp only [List.length_drop]
      omega
    | ok u s1 =>
      cases u
      obtain ⟨hbuf, _⟩ := rs0_loop_ok buf _ (so + offset) s1 hrs
      simp only [MiniStream.seek, hbuf]
      rw [if_neg (by omega : ¬ q ≥ buf.length)]
      constructor
      · intro v p' h; cases h; rfl
      · intro e p' h; cases h

/-- C4 witness: a concrete resolution through `far_string0` where the
hypotheses hold and the returned state's position equals the saved one. -/
theorem c4_witness :
    ([0, 7] : List Nat).length < 2 ^ 63 ∧ (1 : Nat) < ([0, 7] : List Nat).length ∧
    far_string0 0 ⟨⟨[0, 7], 1⟩, 0⟩ = .ok [0] ⟨⟨[0, 7], 1⟩, 0⟩ ∧
    (⟨⟨[0, 7], 1⟩, 0⟩ : PState).stream.pos = 1 :=
  ⟨by norm_num, by norm_num, by decide,
   (c4_far_string0_restores_position ⟨⟨[0, 7], 1⟩, 0⟩ 0 (by norm_num) (by norm_num)).1
     [0] ⟨⟨[0, 7], 1⟩, 0⟩ (by decide)⟩

/-- The block search of `block_string0` on a region laid out as a
zero-free name, its terminating zero, the padding completing the final
4-byte block, and at least one further byte (the strict bounds check of
the last block read needs it): it reports one block per 4 name-plus-pad
bytes and the offset `4 - name.length % 4` of the zero inside the final
block, leaving the scan position after the final block. -/
theorem block_loop_spec (buf : List Nat) :
    ∀ (name : List Nat) (k p : Nat) (pad : List Nat) (r : Nat) (rest : List Nat),
      (∀ b ∈ name, b ≠ 0) → pad.length = 3 - name.length % 4 →
      block_loop buf k p (name ++ 0 :: (pad ++ r :: rest)) =
        .ok (k + (name.length / 4 + 1), 4 - name.length % 4)
          ⟨buf, p + 4 * (name.length / 4 + 1)⟩
  | [], k, p, pad, r, rest, _, hpad => by
    obtain ⟨p1, p2, p3, rfl⟩ := List.length_eq_three.mp (by simpa using hpad)
    simp [block_loop]
  | [a], k, p, pad, r, rest, hnz, hpad => by
    obtain ⟨p1, p2, rfl⟩ := List.length_eq_two.mp (by simpa using hpad)
    have ha : a ≠ 0 := hnz a (by simp)
    simp [block_loop, ha]
  | [a, b], k, p, pad, r, rest, hnz, hpad => by
    obtain ⟨p1, rfl⟩ := List.length_eq_one.mp (by simpa using hpad)
    have ha : a ≠ 0 := hnz a (by simp)
    have hb : b ≠ 0 := hnz b (by simp)
    simp [block_loop, ha, hb]
  | [a, b, c], k, p, pad, r, rest, hnz, hpad => by
    have hp0 : pad = [] := List.length_eq_zero.mp (by simpa using hpad)
    subst hp0
    have ha : a ≠ 0 := hnz a (by simp)
    have hb : b ≠ 0 := hnz b (by simp)
    have hc : c ≠ 0 := hnz c (by simp)
    simp [block_loop, ha, hb, hc]
  | a :: b :: c :: d :: tl, k, p, pad, r, rest, hnz, hpad => by
    have ha : a ≠ 0 := hnz a (by simp)
    have hb : b ≠ 0 := hnz b (by simp)
    have hc : c ≠ 0 := hnz c (by simp)
    have hd : d ≠ 0 := hnz d (by simp)
    have hnz2 : ∀ x ∈ tl, x ≠ 0 := fun x hx => hnz x (by simp [hx])
    have hpad2 : pad.length = 3 - tl.length % 4 := by
      simp only [List.length_cons] at hpad
      omega
    have hcons : ∃ e rest2, tl ++ 0 :: (pad ++ r :: rest) = e :: rest2 := by
      cases tl with
      | nil => exact ⟨0, pad ++ r :: rest, rfl⟩
      | cons t ts => exact ⟨t, ts ++ 0 :: (pad ++ r :: rest), rfl⟩
    obtain ⟨e, rest2, hx⟩ := hcons
    show block_loop buf k p (a :: b :: c :: d :: (tl ++ 0 :: (pad ++ r :: rest))) = _
    rw [hx, block_loop, if_neg ha, if_neg hb, if_neg hc, if_neg hd, ← hx,
      block_loop_spec buf tl (k + 1) (p + 4) pad r rest hnz2 hpad2]
    simp only [List.length_cons, MRes.ok.injEq, Prod.mk.injEq, MiniStream.mk.injEq,
      eq_self_iff_true, true_and]
    omega

/-- C6: whenever the bytes at the cursor are a zero-free name, its
terminating zero at any of the four positions inside the final 4-byte
block (the padding completing that block), and at least one further
byte, `block_string0` returns exactly the name bytes — terminator and
padding stripped — and leaves the cursor at the block boundary right
after the final block of the name. -/
theorem c6_block_name_terminator (p : PState) (name pad : List Nat) (r : Nat)
    (rest : List Nat)
    (hnz : ∀ b ∈ name, b ≠ 0)
    (hpad : pad.length = 3 - name.length % 4)
    (hseg : p.stream.buf.drop p.stream.pos = name ++ 0 :: (pad ++ r :: rest)) :
    block_string0 p = .ok name
      ⟨⟨p.stream.buf, p.stream.pos + (name.length + 1 + pad.length)⟩,
       p.string_offset⟩ := by
  obtain ⟨⟨buf, q⟩, so⟩ := p
  have hseg : buf.drop q = name ++ 0 :: (pad ++ r :: rest) := hseg
  have hlen : buf.length - q = name.length + 1 + (pad.length + (1 + rest.length)) := by
    have hl := congrArg List.length hseg
    simp only [List.length_drop, List.length_append, List.length_cons] at hl
    omega
  have hq : q < buf.length := by omega
  have h4B : 4 * (name.length / 4 + 1) = name.length + 1 + pad.length := by omega
  simp only [block_string0]
  rw [hseg, block_loop_spec buf name 0 q pad r rest hnz hpad]
  simp only [MiniStream.seek]
  rw [if_neg (by omega : ¬ q ≥ buf.length)]
  simp only [MiniStream.read_bytes]
  rw [if_pos (by omega : q + (0 + (name.length / 4 + 1)) * 4 < buf.length)]
  rw [hseg]
  have hsplit : name ++ 0 :: (pad ++ r :: rest) = (name ++ 0 :: pad) ++ r :: rest := by
    simp
  rw [hsplit, List.take_left'
    (by simp only [List.length_append, List.length_cons]; omega :
      (name ++ 0 :: pad).length = (0 + (name.length / 4 + 1)) * 4)]
  have hcut : (name ++ 0 :: pad).length - (4 - name.length % 4) = name.length := by
    simp only [List.length_append, List.length_cons]
    omega
  show PRes.ok
      ((name ++ 0 :: pad).take ((name ++ 0 :: pad).length - (4 - name.length % 4)))
      ⟨⟨buf, q + (0 + (name.length / 4 + 1)) * 4⟩, so⟩ =
    PRes.ok name ⟨⟨buf, q + (name.length + 1 + pad.length)⟩, so⟩
  rw [hcut, List.take_left]
  simp only [PRes.ok.injEq, PState.mk.injEq, MiniStream.mk.injEq, eq_self_iff_true,
    true_and, and_true]
  omega

/-- C6 witness: a three-byte name whose terminator is the final byte of
its single block, read at offset 0 of an eight-byte buffer. -/
theorem c6_witness :
    block_string0 ⟨⟨[65, 66, 67, 0, 9, 9, 9, 9], 0⟩, 0⟩ =
      .ok [65, 66, 67] ⟨⟨[65, 66, 67, 0, 9, 9, 9, 9], 4⟩, 0⟩ := by
  have h := c6_block_name_terminator ⟨⟨[65, 66, 67, 0, 9, 9, 9, 9], 0⟩, 0⟩
    [65, 66, 67] [] 9 [9, 9, 9] (by decide) (by decide) (by decide)
  simpa using h

/-- C10 counterexample: from a fresh cursor on `[1,2,3,0]`,
`read_string0` succeeds leaving the position at 4 = length (which the
claim allows), after which `align` — an operation other than
`read_string0` — also succeeds as a no-op, leaving the position at
4 = length, not strictly inside the buffer as the claim states for
every operation other than `read_string0`. -/
theorem c10_align_at_end_counterexample :
    MiniStream.read_string0 ⟨[1, 2, 3, 0], 0⟩ = .ok [1, 2, 3, 0] ⟨[1, 2, 3, 0], 4⟩ ∧
    MiniStream.align ⟨[1, 2, 3, 0], 4⟩ = .ok () ⟨[1, 2, 3, 0], 4⟩ ∧
    ¬ (4 < ([1, 2, 3, 0] : List Nat).length) :=
  ⟨rfl, rfl, by decide⟩

/-- C10 (amended): starting from any cursor state whose position is at
most the buffer length (as every state reachable from a fresh cursor
is), every successful operation leaves the position at most the buffer
length and the buffer unchanged; the advancing reads, the peeks and
`seek` in fact leave it strictly inside, while `read_string0` — and
`align` when it is a no-op on an already aligned position — may leave it
exactly at the end. -/
theorem c10_position_invariant (s : MiniStream) (hs : s.pos ≤ s.buf.length) :
    (∀ n v s', s.read_bytes n = .ok v s' → s'.pos < s.buf.length ∧ s'.buf = s.buf) ∧
    (∀ n v s', s.peek_bytes n = .ok v s' → s'.pos < s.buf.length ∧ s'.buf = s.buf) ∧
    (∀ v s', s.read_u32_le = .ok v s' → s'.pos < s.buf.length ∧ s'.buf = s.buf) ∧
    (∀ v s', s.peek_u32_le = .ok v s' → s'.pos < s.buf.length ∧ s'.buf = s.buf) ∧
    (∀ t s', s.seek t = .ok () s' → s'.pos < s.buf.length ∧ s'.buf = s.buf) ∧
    (∀ v s', s.read_string0 = .ok v s' → s'.pos ≤ s.buf.length ∧ s'.buf = s.buf) ∧
    (∀ s', s.align = .ok () s' → s'.pos ≤ s.buf.length ∧ s'.buf = s.buf) := by
  refine ⟨?_, ?_, ?_, ?_, ?_, ?_, ?_⟩
  · intro n v s' h
    rw [MiniStream.read_bytes] at h
    by_cases hc : s.pos + n < s.buf.length
    · rw [if_pos hc] at h
      cases h
      exact ⟨hc, rfl⟩
    · rw [if_neg hc] at h
      cases h
  · intro n v s' h
    rw [MiniStream.peek_bytes] at h
    by_cases hc : s.pos + n < s.buf.length
    · rw [if_pos hc] at h
      cases h
      exact ⟨by omega, rfl⟩
    · rw [if_neg hc] at h
      cases h
  · intro v s' h
    rw [MiniStream.read_u32_le, MiniStream.peek_u32_le] at h
    by_cases hc : s.pos + 4 < s.buf.length
    · rw [if_pos hc] at h
      cases h
      exact ⟨hc, rfl⟩
    · rw [if_neg hc] at h
      cases h
  · intro v s' h
    rw [MiniStream.peek_u32_le] at h
    by_cases hc : s.pos + 4 < s.buf.length
    · rw [if_pos hc] at h
      cases h
      exact ⟨by omega, rfl⟩
    · rw [if_neg hc] at h
      cases h
  · intro t s' h
    rw [MiniStream.seek] at h
    by_cases hc : t ≥ s.buf.length
    · rw [if_pos hc] at h
      cases h
    · rw [if_neg hc] at h
      cases h
      exact ⟨Nat.lt_of_not_le hc, rfl⟩
  · intro v s' h
    rw [MiniStream.read_string0] at h
    cases hrs : rs0_loop s.buf s.pos (s.buf.drop s.pos) with
    | oob => rw [hrs] at h; cases h
    | fail s1 => rw [hrs] at h; cases h
    | ok u s1 =>
      cases u
      rw [hrs] at h
      cases h
      obtain ⟨h1, h2⟩ := rs0_loop_ok s.buf _ s.pos _ hrs
      refine ⟨?_, h1⟩
      simp only [List.length_drop] at h2
      omega
  · intro s' h
    simp only [MiniStream.align] at h
    by_cases hm : s.pos % 4 = 0
    · simp only [hm] at h
      cases h
      exact ⟨hs, rfl⟩
    · rw [if_pos (by simpa using hm)] at h
      by_cases hst : 4 - s.pos % 4 + s.pos ≥ s.buf.length
      · rw [if_pos hst] at h
        cases h
      · rw [if_neg hst] at h
        cases h
        refine ⟨?_, rfl⟩
        show s.pos + (4 - s.pos % 4) ≤ s.buf.length
        omega

/-- A `read_u32_le` performed from decoder code, at a position with
four readable bytes, yields the big-endian word there and advances. -/
theorem pstep_read_u32 (buf : List Nat) (q so : Nat) (h : q + 4 < buf.length) :
    pstep MiniStream.read_u32_le ⟨⟨buf, q⟩, so⟩ = .ok (word buf q) ⟨⟨buf, q + 4⟩, so⟩ := by
  simp [pstep, MiniStream.read_u32_le, MiniStream.peek_u32_le, word, h]

/-- A `peek_u32_le` from decoder code: same word, no position change. -/
theorem pstep_peek_u32 (buf : List Nat) (q so : Nat) (h : q + 4 < buf.length) :
    pstep MiniStream.peek_u32_le ⟨⟨buf, q⟩, so⟩ = .ok (word buf q) ⟨⟨buf, q⟩, so⟩ := by
  simp [pstep, MiniStream.peek_u32_le, word, h]

/-- A `seek` from decoder code to a position strictly inside the buffer. -/
theorem pstep_seek_lt (buf : List Nat) (q so tgt : Nat) (h : tgt < buf.length) :
    pstep (fun s => s.seek tgt) ⟨⟨buf, q⟩, so⟩ = .ok () ⟨⟨buf, tgt⟩, so⟩ := by
  simp only [pstep, MiniStream.seek]
  rw [if_neg (by omega : ¬ tgt ≥ buf.length)]

/-- `peek_tag` at a position holding a recognized tag word. -/
theorem peek_tag_eq (buf : List Nat) (q so : Nat) (t : Tag) (h4 : q + 4 < buf.length)
    (ht : Tag.from_u32 (word buf q) = some t) :
    peek_tag ⟨⟨buf, q⟩, so⟩ = .ok t ⟨⟨buf, q⟩, so⟩ := by
  simp only [peek_tag, pstep_peek_u32 buf q so h4, ht]

/-- `tag` at a position holding a recognized tag word consumes it. -/
theorem tagOf_eq (buf : List Nat) (q so : Nat) (t : Tag) (h4 : q + 4 < buf.length)
    (ht : Tag.from_u32 (word buf q) = some t) :
    tagOf ⟨⟨buf, q⟩, so⟩ = .ok t ⟨⟨buf, q + 4⟩, so⟩ := by
  simp only [tagOf, pstep_read_u32 buf q so h4, ht]

/-- `accept_tag` returns `false` without consuming when the next tag is
recognized but different. -/
theorem accept_tag_eq_false (buf : List Nat) (q so : Nat) (tag t : Tag)
    (h4 : q + 4 < buf.length) (ht : Tag.from_u32 (word buf q) = some t)
    (hne : t ≠ tag) :
    accept_tag tag ⟨⟨buf, q⟩, so⟩ = .ok false ⟨⟨buf, q⟩, so⟩ := by
  simp only [accept_tag, peek_tag_eq buf q so t h4 ht, if_neg hne]

/-- The structure-block offset field of the header summary. -/
theorem headerAt_off_dt_struct (buf : List Nat) (q : Nat) :
    (headerAt buf q).off_dt_struct = word buf (q + 4) := rfl

/-- The header-field block of `parse`, evaluated: reading from position
`q` yields exactly the words of `headerAt buf q`, stores the strings
offset, and consumes `24 + gatedLen version` bytes — the version-gated
fields are read if and only if their version guard holds. -/
theorem parseHeaderFields_eq (buf : List Nat) (q so : Nat)
    (H : q + 24 + gatedLen (word buf (q + 16)) < buf.length) :
    parseHeaderFields ⟨⟨buf, q⟩, so⟩ =
      .ok (headerAt buf q)
        ⟨⟨buf, q + 24 + gatedLen (word buf (q + 16))⟩, word buf (q + 8)⟩ := by
  have hge : q + 24 ≤ q + 24 + gatedLen (word buf (q + 16)) := Nat.le_add_right _ _
  have e1 : q + 4 + 4 = q + 8 := by omega
  have e2 : q + 8 + 4 = q + 12 := by omega
  have e3 : q + 12 + 4 = q + 16 := by omega
  have e4 : q + 16 + 4 = q + 20 := by omega
  have e5 : q + 20 + 4 = q + 24 := by omega
  have e6 : q + 24 + 4 = q + 28 := by omega
  have e7 : q + 28 + 4 = q + 32 := by omega
  have e8 : q + 32 + 4 = q + 36 := by omega
  have h1 : q + 4 < buf.length := by omega
  have h2 : q + 4 + 4 < buf.length := by omega
  have h3 : q + 8 + 4 < buf.length := by omega
  have h4 : q + 12 + 4 < buf.length := by omega
  have h5 : q + 16 + 4 < buf.length := by omega
  have h6 : q + 20 + 4 < buf.length := by omega
  have hv17 : 17 < word buf (q + 16) → 3 < word buf (q + 16) := by omega
  have hv3 : 3 < word buf (q + 16) → 2 < word buf (q + 16) := by omega
  by_cases g2 : 2 < word buf (q + 16)
  · by_cases g3 : 3 < word buf (q + 16)
    · by_cases g17 : 17 < word buf (q + 16)
      · have HD : q + 24 + (4 + 4 + 4) < buf.length := by
          simp only [gatedLen, if_pos g2, if_pos g3, if_pos g17] at H
          omega
        simp only [parseHeaderFields,
          pstep_read_u32 buf q so h1, e1,
          pstep_read_u32 buf (q + 4) so h2, e1,
          pstep_read_u32 buf (q + 8) so h3, e2,
          pstep_read_u32 buf (q + 12) (word buf (q + 8)) h4, e3,
          pstep_read_u32 buf (q + 16) (word buf (q + 8)) h5, e4,
          pstep_read_u32 buf (q + 20) (word buf (q + 8)) h6, e5,
          if_pos g2, pstep_read_u32 buf (q + 24) (word buf (q + 8)) (by omega), e6,
          if_pos g3, pstep_read_u32 buf (q + 28) (word buf (q + 8)) (by omega), e7,
          if_pos g17, pstep_read_u32 buf (q + 32) (word buf (q + 8)) (by omega), e8,
          headerAt, gatedLen]
      · have HC : q + 24 + (4 + 4 + 0) < buf.length := by
          simp only [gatedLen, if_pos g2, if_pos g3, if_neg g17] at H
          omega
        simp only [parseHeaderFields,
          pstep_read_u32 buf q so h1, e1,
          pstep_read_u32 buf (q + 4) so h2, e1,
          pstep_read_u32 buf (q + 8) so h3, e2,
          pstep_read_u32 buf (q + 12) (word buf (q + 8)) h4, e3,
          pstep_read_u32 buf (q + 16) (word buf (q + 8)) h5, e4,
          pstep_read_u32 buf (q + 20) (word buf (q + 8)) h6, e5,
          if_pos g2, pstep_read_u32 buf (q + 24) (word buf (q + 8)) (by omega), e6,
          if_pos g3, pstep_read_u32 buf (q + 28) (word buf (q + 8)) (by omega), e7,
          if_neg g17, headerAt, gatedLen]
    · have g17 : ¬ 17 < word buf (q + 16) := fun h => g3 (hv17 h)
      have HB : q + 24 + (4 + 0 + 0) < buf.length := by
        simp only [gatedLen, if_pos g2, if_neg g3, if_neg g17] at H
        omega
      simp only [parseHeaderFields,
        pstep_read_u32 buf q so h1, e1,
        pstep_read_u32 buf (q + 4) so h2, e1,
        pstep_read_u32 buf (q + 8) so h3, e2,
        pstep_read_u32 buf (q + 12) (word buf (q + 8)) h4, e3,
        pstep_read_u32 buf (q + 16) (word buf (q + 8)) h5, e4,
        pstep_read_u32 buf (q + 20) (word buf (q + 8)) h6, e5,
        if_pos g2, pstep_read_u32 buf (q + 24) (word buf (q + 8)) (by omega), e6,
        if_neg g3, if_neg g17, headerAt, gatedLen]
  · have g3 : ¬ 3 < word buf (q + 16) := fun h => g2 (hv3 h)
    have g17 : ¬ 17 < word buf (q + 16) := fun h => g3 (hv17 h)
    simp only [parseHeaderFields,
      pstep_read_u32 buf q so h1, e1,
      pstep_read_u32 buf (q + 4) so h2, e1,
      pstep_read_u32 buf (q + 8) so h3, e2,
      pstep_read_u32 buf (q + 12) (word buf (q + 8)) h4, e3,
      pstep_read_u32 buf (q + 16) (word buf (q + 8)) h5, e4,
      pstep_read_u32 buf (q + 20) (word buf (q + 8)) h6, e5,
      if_neg g2, if_neg g3, if_neg g17, headerAt, gatedLen]

/-- C10 witness: the invariant applied to a concrete cursor and a
concrete successful `read_bytes`. -/
theorem c10_witness :
    ((⟨[1, 2], 0⟩ : MiniStream).pos ≤ ([1, 2] : List Nat).length) ∧
    MiniStream.read_bytes ⟨[1, 2], 0⟩ 1 = .ok [1] ⟨[1, 2], 1⟩ ∧
    ((⟨[1, 2], 1⟩ : MiniStream).pos < ([1, 2] : List Nat).length ∧
      (⟨[1, 2], 1⟩ : MiniStream).buf = [1, 2]) :=
  ⟨by decide, by decide,
   (c10_position_invariant ⟨[1, 2], 0⟩ (by decide)).1 1 [1] ⟨[1, 2], 1⟩ (by decide)⟩

/-- C7: the header parse reads the three version-gated words if and only
if their guards hold (`version > 2`, `> 3`, `> 17`): the words consumed
are exactly `24 + gatedLen version` bytes past the magic word, and each
gated field equals the next word when its guard holds and zero when it
does not (so a version-2 blob reads neither size field and a version-20
blob reads both). -/
theorem c7_version_gated_header (p : PState)
    (H : p.stream.pos + 24 + gatedLen (word p.stream.buf (p.stream.pos + 16)) <
      p.stream.buf.length) :
    parseHeaderFields p = .ok (headerAt p.stream.buf p.stream.pos)
      ⟨⟨p.stream.buf,
        p.stream.pos + 24 + gatedLen (word p.stream.buf (p.stream.pos + 16))⟩,
       word p.stream.buf (p.stream.pos + 8)⟩ ∧
    ((headerAt p.stream.buf p.stream.pos).boot_cpuid_phys =
      if 2 < word p.stream.buf (p.stream.pos + 16) then
        word p.stream.buf (p.stream.pos + 24) else 0) ∧
    ((headerAt p.stream.buf p.stream.pos).size_dt_strings =
      if 3 < word p.stream.buf (p.stream.pos + 16) then
        word p.stream.buf (p.stream.pos + 28) else 0) ∧
    ((headerAt p.stream.buf p.stream.pos).size_dt_struct =
      if 17 < word p.stream.buf (p.stream.pos + 16) then
        word p.stream.buf (p.stream.pos + 32) else 0) := by
  obtain ⟨⟨buf, q⟩, so⟩ := p
  exact ⟨parseHeaderFields_eq buf q so H, rfl, rfl, rfl⟩

/-- C7 witness: a version-2 header (24 bytes consumed, both size fields
and `boot_cpuid_phys` left zero) and a version-20 header (36 bytes
consumed, all three gated fields read). -/
theorem c7_witness :
    parseHeaderFields
        ⟨⟨w32 1 ++ w32 2 ++ w32 3 ++ w32 4 ++ w32 2 ++ w32 6 ++ [0], 0⟩, 5⟩ =
      .ok ⟨1, 2, 3, 4, 2, 6, 0, 0, 0⟩
        ⟨⟨w32 1 ++ w32 2 ++ w32 3 ++ w32 4 ++ w32 2 ++ w32 6 ++ [0], 24⟩, 3⟩ ∧
    parseHeaderFields
        ⟨⟨w32 1 ++ w32 2 ++ w32 3 ++ w32 4 ++ w32 20 ++ w32 6 ++ w32 7 ++ w32 8 ++
          w32 9 ++ [0], 0⟩, 5⟩ =
      .ok ⟨1, 2, 3, 4, 20, 6, 7, 8, 9⟩
        ⟨⟨w32 1 ++ w32 2 ++ w32 3 ++ w32 4 ++ w32 20 ++ w32 6 ++ w32 7 ++ w32 8 ++
          w32 9 ++ [0], 36⟩, 3⟩ := by
  constructor
  · exact ((c7_version_gated_header
      ⟨⟨w32 1 ++ w32 2 ++ w32 3 ++ w32 4 ++ w32 2 ++ w32 6 ++ [0], 0⟩, 5⟩
      (by decide)).1).trans (by decide)
  · exact ((c7_version_gated_header
      ⟨⟨w32 1 ++ w32 2 ++ w32 3 ++ w32 4 ++ w32 20 ++ w32 6 ++ w32 7 ++ w32 8 ++
        w32 9 ++ [0], 0⟩, 5⟩
      (by decide)).1).trans (by decide)

/-- C8: after a successful header parse, `parse` seeks to
`off_dt_struct`; when the recognized tag there is not `FDT_BEGIN_NODE`
it fails with `NoRootFound` (first conjunct, for every such blob), and a
successful parse needs no trailing `FDT_END` after the root's
`FDT_END_NODE` — `blob3`, which has none, parses to a tree (second
conjunct). -/
theorem c8_single_root_no_end_required :
    (∀ (buf : List Nat) (fuel : Nat) (t : Tag),
        word buf 0 = 0xd00dfeed →
        28 + gatedLen (word buf 20) < buf.length →
        word buf 8 < buf.length →
        word buf 8 + 4 < buf.length →
        Tag.from_u32 (word buf (word buf 8)) = some t →
        t ≠ .beginNode →
        parse (fuel + 1) ⟨⟨buf, 0⟩, 0⟩ =
          .perr .noRootFound ⟨⟨buf, word buf 8⟩, word buf 12⟩) ∧
    (parse 100 ⟨⟨blob3, 0⟩, 0⟩).okOf.isSome = true := by
  constructor
  · intro buf fuel t hmagic hhdr hseek hpeek htag hne
    have h04 : 0 + 4 < buf.length := by omega
    simp only [parse, tagOf_eq buf 0 0 .magic h04 (by rw [hmagic]; rfl), if_true]
    norm_num
    rw [parseHeaderFields_eq buf 4 0 (by simpa using hhdr)]
    norm_num
    rw [headerAt_off_dt_struct]
    norm_num
    rw [pstep_seek_lt buf (28 + gatedLen (word buf 20)) (word buf 12) (word buf 8) hseek]
    simp only [nodeF,
      accept_tag_eq_false buf (word buf 8) (word buf 12) .beginNode t hpeek htag hne]
  · rfl

/-- C8 witness: `blob8`, whose structure block starts with `FDT_END`,
makes `parse` fail with `NoRootFound` (the hypotheses of the theorem
hold for it by computation). -/
theorem c8_witness :
    parse 1 ⟨⟨blob8, 0⟩, 0⟩ = .perr .noRootFound ⟨⟨blob8, 36⟩, 0⟩ :=
  (c8_single_root_no_end_required).1 blob8 0 .endTag (by decide) (by decide)
    (by decide) (by decide) (by decide) (by decide)

end FlatDeviceTree
